import Mathlib

/-!
Verification development for the CanvasFileUploader repository
(`FilesImportControl.tsx`, `PowerAutomateCloudFlows.ts`).

The TypeScript code is shallow-embedded: React state updates become pure
functions on an explicit component-state record, network calls become
functions of an explicitly passed response/outcome value, and JavaScript
string operations (`toLowerCase`, `trim`, `split(/[;,]/)`, `substring`,
`startsWith`, `includes`, first-occurrence `replace`) are modelled by
executable functions on `String`/`List Char` restricted to the ASCII
behaviour the code relies on.  File sizes are natural numbers of bytes
(JavaScript `File.size` is a non-negative integer) and the synthetic
progress value is a rational number standing for the JavaScript float.
-/

namespace CanvasFileUploader

/-! ## JavaScript string primitives -/

/-- Separator class of the regex `[;,]` used by `split(/[;,]/)`. -/
def isSepChar (c : Char) : Bool := c = ';' || c = ','

/-- Whitespace recognised by the model of `String.prototype.trim`. -/
def isWsChar (c : Char) : Bool := c = ' ' || c = '\t' || c = '\n' || c = '\r'

/-- ASCII action of `String.prototype.toLowerCase` on one character. -/
def jsCharToLower (c : Char) : Char :=
  match c with
  | 'A' => 'a' | 'B' => 'b' | 'C' => 'c' | 'D' => 'd' | 'E' => 'e' | 'F' => 'f'
  | 'G' => 'g' | 'H' => 'h' | 'I' => 'i' | 'J' => 'j' | 'K' => 'k' | 'L' => 'l'
  | 'M' => 'm' | 'N' => 'n' | 'O' => 'o' | 'P' => 'p' | 'Q' => 'q' | 'R' => 'r'
  | 'S' => 's' | 'T' => 't' | 'U' => 'u' | 'V' => 'v' | 'W' => 'w' | 'X' => 'x'
  | 'Y' => 'y' | 'Z' => 'z'
  | c => c

/-- Model of `s.toLowerCase()`. -/
def jsToLower (s : String) : String := ⟨s.data.map jsCharToLower⟩

/-- Both-ends whitespace removal on a character list. -/
def trimChars (l : List Char) : List Char :=
  ((l.dropWhile isWsChar).reverse.dropWhile isWsChar).reverse

/-- Model of `s.trim()`. -/
def jsTrim (s : String) : String := ⟨trimChars s.data⟩

/-- Model of `s.split(/[;,]/)` on the underlying character list: split at every
separator, keeping empty segments (they are filtered out later by the code). -/
def splitSepChars : List Char → List (List Char)
  | [] => [[]]
  | c :: rest =>
    let r := splitSepChars rest
    if isSepChar c then [] :: r
    else
      match r with
      | t :: ts => (c :: t) :: ts
      | [] => [[c]]

/-- Model of `s.split(/[;,]/)`. -/
def jsSplitSeps (s : String) : List String := (splitSepChars s.data).map (⟨·⟩)

/-- Model of `s.includes(c)` for a single character. -/
def jsIncludes (s : String) (c : Char) : Bool := s.data.contains c

/-- Model of `s.startsWith('.')`. -/
def headIsDot : List Char → Bool
  | [] => false
  | c :: _ => c = '.'

/-- Model of `a.startsWith(b)` for a general pattern. -/
def listBeginsWith : List Char → List Char → Bool
  | _, [] => true
  | [], _ :: _ => false
  | a :: as, b :: bs => a = b && listBeginsWith as bs

/-- Model of `s.startsWith(pat)`. -/
def strBeginsWith (s pat : String) : Bool := listBeginsWith s.data pat.data

/-- Model of `s.replace('*', '')`: JavaScript `replace` with a string pattern
removes only the first occurrence. -/
def removeFirstStar : List Char → List Char
  | [] => []
  | c :: r => if c = '*' then r else c :: removeFirstStar r

/-- Model of `fileName.substring(fileName.lastIndexOf('.'))`: the suffix
starting at the last dot, or (because `substring` clamps the `-1` returned by
`lastIndexOf` to `0`) the whole string when there is no dot. -/
def extSuffixChars (l : List Char) : List Char :=
  if l.contains '.' then '.' :: (l.reverse.takeWhile (fun c => c ≠ '.')).reverse
  else l

/-- String form of `extSuffixChars`. -/
def jsExtSuffix (s : String) : String := ⟨extSuffixChars s.data⟩

/-! ## Data model (`IFileState`, `IExistingFileState`, `IAdminConfig`) -/

/-- Lifecycle status of a locally known file (`IFileState.status`). -/
inductive FileStatus
  | pending
  | uploading
  | completed
  | failed
  | invalid
deriving DecidableEq, Repr

/-- The parts of a browser `File` object the control reads: `name`, `size`,
`type`, and the content obtained through `FileReader` (as a data URL). -/
structure FileData where
  name : String
  size : Nat
  mime : String
  content : String
deriving DecidableEq, Repr

/-- Payload of the `error?: string` field of a file state: the two message
templates built by `validateFileType` (lines 411 and 433 of
`FilesImportControl.tsx`), recorded with the data interpolated into them,
or an upload failure message. -/
inductive FileError
  | typeNotAllowed (allowedFileTypes : String)
  | sizeExceeded (fileSizeBytes currentTotalBytes limitMB : Nat)
  | uploadError (msg : String)
deriving DecidableEq, Repr

/-- Result shape `{ isValid, error? }` of `validateFileType`. -/
structure ValidationResult where
  isValid : Bool
  error : Option FileError
deriving DecidableEq, Repr

/-- One entry of the `fileStates` React state (`IFileState`).  The progress
value is an integer because every value the code stores is one
(`Math.floor` of the simulated float, `0`, or `100`). -/
structure FileState where
  file : FileData
  progress : Int
  status : FileStatus
  isValid : Bool
  error : Option FileError := none
  url : Option String := none
deriving DecidableEq, Repr

/-- Admin/runtime configuration (`IAdminConfig`): the active policy returned
by `getCurrentConfig()`. -/
structure AdminConfig where
  maxTotalFileSizeMB : Nat
  allowedFileTypes : String
deriving DecidableEq, Repr

/-- One entry of the `existingFiles` React state (`IExistingFileState`). -/
structure ExistingFileState where
  name : String
  size : Nat
  url : String
  lastModified : String
deriving DecidableEq, Repr

/-- Total size of the valid, non-failed locally pending files: the quantity
`fileStates.filter(fs => fs.isValid && fs.status !== 'failed')` summed over
`file.size` (lines 422-424 and 733-736). -/
def sumValidNonFailedSizes (states : List FileState) : Nat :=
  ((states.filter fun fs => fs.isValid && fs.status ≠ .failed).map
    fun fs => fs.file.size).sum

/-- Total size of the known existing remote files. -/
def sumExistingRemoteSizes (ex : List ExistingFileState) : Nat :=
  (ex.map fun f => f.size).sum

/-! ## Validation engine (`validateFileType`, lines 379-439) -/

/-- Parsed allow-list (lines 387-390): split on `;` or `,`, trim, lower-case,
drop empties and bare wildcards. -/
def allowedTypesOf (allowedFileTypes : String) : List String :=
  ((jsSplitSeps allowedFileTypes).map fun t => jsToLower (jsTrim t)).filter
    fun t => t ≠ "" && t ≠ "*"

/-- One pattern test (lines 398-406): a pattern containing `/` is a MIME
pattern (exact match, or prefix match after deleting the first `*`); any
other pattern is an extension, given a leading dot when it has none, and
compared with the file's extension suffix. -/
def matchesAllowedType (fileExtension fileType : String) (allowedType : String) : Bool :=
  if jsIncludes allowedType '/' then
    fileType == allowedType ||
      listBeginsWith fileType.data (removeFirstStar allowedType.data)
  else
    let normalizedAllowedType :=
      if headIsDot allowedType.data then allowedType else "." ++ allowedType
    fileExtension == normalizedAllowedType

/-- The type-check portion of `validateFileType` (lines 383-415) in
isolation: true when the candidate passes (or no restriction applies) and
control falls through to the size check, false when the `File type not
allowed` rejection is returned. -/
def fileTypeAccepted (allowedFileTypes : String) (file : FileData) : Bool :=
  if allowedFileTypes = "" || jsTrim allowedFileTypes = "" ||
      jsTrim allowedFileTypes = "*" then
    true
  else
    let allowedTypes := allowedTypesOf allowedFileTypes
    if allowedTypes.length > 0 then
      allowedTypes.any
        (matchesAllowedType (jsExtSuffix (jsToLower file.name)) (jsToLower file.mime))
    else true

/-- Replacement of every `;` by `,` in an allow-list string, for stating that
the two separators accepted by `split(/[;,]/)` are interchangeable. -/
def swapSemisToCommas (s : String) : String :=
  ⟨s.data.map fun c => if c = ';' then ',' else c⟩

/-- Total size of the valid entries of a batch accumulator
(`newFileStates.filter(fs => fs.isValid)`). -/
def sumValidSizes (states : List FileState) : Nat :=
  ((states.filter fun fs => fs.isValid).map fun fs => fs.file.size).sum

/-- Size check of `validateFileType` (lines 417-438): executed only when
`maxTotalFileSizeMB > 0`; sums the valid non-failed pending files and the
`existingFiles` argument (which, at the only call site, is the batch accepted
so far), adds the candidate size and compares with the limit in bytes. -/
def sizeCheck (config : AdminConfig) (fileStates : List FileState)
    (file : FileData) (existingFiles : List FileData) : ValidationResult :=
  if config.maxTotalFileSizeMB > 0 then
    let maxSizeBytes := config.maxTotalFileSizeMB * 1024 * 1024
    let existingPendingFiles :=
      (fileStates.filter fun fs => fs.isValid && fs.status ≠ .failed).map
        fun fs => fs.file
    let allExistingFiles := existingPendingFiles ++ existingFiles
    let totalExistingSize := (allExistingFiles.map fun f => f.size).sum
    let totalNewSize := totalExistingSize + file.size
    if totalNewSize > maxSizeBytes then
      { isValid := false,
        error := some (.sizeExceeded file.size totalExistingSize
          config.maxTotalFileSizeMB) }
    else
      { isValid := true, error := none }
  else
    { isValid := true, error := none }

/-- Model of `validateFileType(file, existingFiles)` (lines 379-439).  The
`config` argument is the value of `getCurrentConfig()` and `fileStates` is the
current React state read by the closure. -/
def validateFileType (config : AdminConfig) (fileStates : List FileState)
    (file : FileData) (existingFiles : List FileData) : ValidationResult :=
  if config.allowedFileTypes = "" || jsTrim config.allowedFileTypes = "" ||
      jsTrim config.allowedFileTypes = "*" then
    sizeCheck config fileStates file existingFiles
  else
    let allowedTypes := allowedTypesOf config.allowedFileTypes
    if allowedTypes.length > 0 then
      let fileName := jsToLower file.name
      let fileType := jsToLower file.mime
      let fileExtension := jsExtSuffix fileName
      let isValidType :=
        allowedTypes.any (matchesAllowedType fileExtension fileType)
      if !isValidType then
        { isValid := false, error := some (.typeNotAllowed config.allowedFileTypes) }
      else
        sizeCheck config fileStates file existingFiles
    else
      sizeCheck config fileStates file existingFiles

/-! ## State store: adding files (`addFilesToState`, lines 442-471) -/

/-- The `IFileState` pushed for a candidate (lines 455-461). -/
def mkNewFileState (file : FileData) (validation : ValidationResult) : FileState :=
  { file := file
    progress := 0
    status := if validation.isValid then .pending else .invalid
    isValid := validation.isValid
    error := validation.error }

/-- Loop body of `addFilesToState` (lines 450-466): each candidate is
validated against the current state plus the valid files accepted earlier in
the same batch (`newFileStates.filter(fs => fs.isValid)`), then appended. -/
def addFilesLoop (config : AdminConfig) (fileStates : List FileState) :
    List FileData → List FileState → List FileState
  | [], newFileStates => newFileStates
  | file :: rest, newFileStates =>
    let filesInCurrentBatch :=
      (newFileStates.filter fun fs => fs.isValid).map fun fs => fs.file
    let validation := validateFileType config fileStates file filesInCurrentBatch
    addFilesLoop config fileStates rest (newFileStates ++ [mkNewFileState file validation])

/-- Model of `addFilesToState(files)`: the new `fileStates` value
(`prev ++ newFileStates`, line 468). -/
def addFilesToState (config : AdminConfig) (fileStates : List FileState)
    (files : List FileData) : List FileState :=
  fileStates ++ addFilesLoop config fileStates files []

/-! ## Component configuration and mode resolution -/

/-- The configuration-bundle props of the component that decide remote mode
(`cloudFlow*Url`, `containerPath`, `listFilesFolderName`, `recordUid`), each
`string | null | undefined`, plus the `buttonAllowMultipleFiles` flag. -/
structure CloudFlowProps where
  cloudFlowUploadUrl : Option String := none
  cloudFlowListFilesUrl : Option String := none
  cloudFlowDeleteUrl : Option String := none
  cloudFlowDownloadUrl : Option String := none
  containerPath : Option String := none
  listFilesFolderName : Option String := none
  recordUid : Option String := none
  buttonAllowMultipleFiles : Bool := true
deriving DecidableEq, Repr

/-- JavaScript truthiness of a `string | null | undefined` value:
`null`, `undefined` and the empty string are falsy. -/
def jsTruthy (o : Option String) : Bool :=
  match o with
  | none => false
  | some s => s ≠ ""

/-- The string value of an optional prop (`''` for `null`/`undefined`). -/
def optStr (o : Option String) : String := o.getD ""

/-- Model of `isCloudFlowConfigured()` (lines 251-253). -/
def isCloudFlowConfigured (p : CloudFlowProps) : Bool :=
  jsTruthy p.recordUid && jsTrim (optStr p.recordUid) ≠ "" &&
    jsTruthy p.cloudFlowDownloadUrl && jsTruthy p.cloudFlowUploadUrl &&
    jsTruthy p.cloudFlowListFilesUrl && jsTruthy p.cloudFlowDeleteUrl &&
    jsTruthy p.containerPath

/-- The guard `!recordUid || recordUid.trim() === ''` used by `removeFile`,
`clearNewFiles` and `processFiles` to decide whether the cumulative batch is
maintained. -/
def recordUidEmpty (p : CloudFlowProps) : Bool :=
  !jsTruthy p.recordUid || jsTrim (optStr p.recordUid) = ""

/-! ## Per-file state store -/

/-- One entry of the cumulative batch (`{name, size, contentBytes}` built by
`processFilesAsJSON`, lines 986-1000). -/
structure CumulativeFile where
  name : String
  size : Nat
  contentBytes : String
deriving DecidableEq, Repr

/-- The component state touched by the claims: the `fileStates`,
`selectedFiles` and `cumulativeFilesJSON` React states.  (Rendering state
such as `showFileList`, and the `existingFiles` list refreshed by
`loadExistingFiles`, are orthogonal to the modelled operations and kept
outside.) -/
structure CompState where
  fileStates : List FileState := []
  selectedFiles : List FileData := []
  cumulativeFilesJSON : List CumulativeFile := []
deriving DecidableEq, Repr

/-- Model of `updateFileState(fileName, updates)` (lines 474-480): the merge
`{ ...fileState, ...updates }` applied to every entry whose `file.name`
matches, a no-op for the rest.  The partial update object is modelled by the
function `upd`. -/
def updateFileState (states : List FileState) (fileName : String)
    (upd : FileState → FileState) : List FileState :=
  states.map fun fileState =>
    if fileState.file.name = fileName then upd fileState else fileState

/-- Standardized upload result (`IUploadResult`). -/
structure UploadResultData where
  fileName : String
  url : String
  success : Bool
  error : Option String := none
deriving DecidableEq, Repr

/-- Outward payload carried in the `filesJSON` field of an event: the cloud
path stringifies mapped upload results (lines 1041-1046), the JSON path
stringifies cumulative-batch entries. -/
inductive FilesJSONPayload
  | fromResults (results : List UploadResultData)
  | fromBatch (files : List CumulativeFile)
deriving DecidableEq, Repr

/-- Upload status strings emitted outward. -/
inductive UploadStatus
  | inProgress
  | completed
  | failed
deriving DecidableEq, Repr

/-- The outward `onEvent` payload fields the claims are about (each field is
a JSON-encoded string in the code; the model keeps the encoded value). -/
structure OutEvent where
  filesJSON : Option FilesJSONPayload := none
  uploadResults : Option (List UploadResultData) := none
  uploadStatus : Option UploadStatus := none
deriving DecidableEq, Repr

/-- Model of `removeFile(fileName)` (lines 483-516): refuses (returning the
state unchanged) when the first entry found with that name is `uploading`,
`completed` or `failed`; otherwise filters the name out of `fileStates` and
`selectedFiles`, and, when no record identity is bound, also out of the
cumulative batch, emitting the updated cumulative list.  The function is
total: the refusal only logs a warning. -/
def removeFile (p : CloudFlowProps) (st : CompState) (fileName : String) :
    CompState × Option OutEvent :=
  let fileState := st.fileStates.find? fun fs => fs.file.name = fileName
  let blocked :=
    match fileState with
    | some fs =>
      fs.status == FileStatus.uploading || fs.status == FileStatus.completed ||
        fs.status == FileStatus.failed
    | none => false
  if blocked then (st, none)
  else
    let st :=
      { st with
        fileStates := st.fileStates.filter fun fs => fs.file.name ≠ fileName
        selectedFiles := st.selectedFiles.filter fun f => f.name ≠ fileName }
    if recordUidEmpty p then
      let updatedCumulative :=
        st.cumulativeFilesJSON.filter fun f => f.name ≠ fileName
      ({ st with cumulativeFilesJSON := updatedCumulative },
        some { filesJSON := some (.fromBatch updatedCumulative) })
    else (st, none)

/-- Model of `clearNewFiles()` (lines 524-546): drops all local entries; when
no record identity is bound it also clears the cumulative batch and notifies
the parent. -/
def clearNewFiles (p : CloudFlowProps) (st : CompState) :
    CompState × Option OutEvent :=
  let st := { st with fileStates := [], selectedFiles := [] }
  if recordUidEmpty p then
    ({ st with cumulativeFilesJSON := [] },
      some { filesJSON := some (.fromBatch []) })
  else (st, none)

/-- Model of the context-change effect (lines 357-376): every local state is
reset when `recordUid`/`containerPath`/the list URL/the folder name change. -/
def contextChangeReset (_st : CompState) : CompState :=
  { fileStates := [], selectedFiles := [], cumulativeFilesJSON := [] }

/-! ## List call (`loadExistingFiles`, lines 269-354) -/

/-- One element of a list-flow `files` array. -/
structure RemoteFileEntry where
  name : String
  size : Nat
  url : String
  lastModified : String
deriving DecidableEq, Repr

/-- A parsed list-flow response: the HTTP `response.ok` flag, the JSON
`success` field, and the JSON `files` field (`none` models an absent,
null, or non-array value — everything for which
`result.files && Array.isArray(result.files)` is false; `some []` is an
explicitly empty array, which is truthy in JavaScript). -/
structure ListResponse where
  ok : Bool
  success : Bool
  files : Option (List RemoteFileEntry)
deriving DecidableEq, Repr

/-- Model of the success/error decision and mapping of `loadExistingFiles`
(lines 311-329) for a response whose body parsed as JSON: an error is thrown
iff `(!response.ok || !result.success) && !hasValidFilesArray`, else the
`files` array (defaulted to `[]`) is mapped into `IExistingFileState`s. -/
def loadExistingFilesResult (r : ListResponse) :
    Except String (List ExistingFileState) :=
  let hasValidFilesArray := r.files.isSome
  if ((!r.ok || !r.success) && !hasValidFilesArray) then
    .error "List files failed"
  else
    .ok (((r.files).getD []).map fun f =>
      { name := f.name, size := f.size, url := f.url,
        lastModified := f.lastModified })

/-- Decision for `Except`. -/
def exceptIsOk : Except String (List ExistingFileState) → Bool
  | .ok _ => true
  | .error _ => false

/-- Modelled from the spec: the acceptance rule claim C3 states —
"successful if and only if either `success=true` or the response body
contains a syntactically valid `files` array, regardless of HTTP status". -/
def listSuccessPerSpec (r : ListResponse) : Bool :=
  r.success || r.files.isSome

/-! ## Progress estimator (`startProgressSimulation`, lines 761-774) -/

/-- One tick of the simulation interval: `simulatedProgress =
Math.min(simulatedProgress + Math.random() * 15, 95)` where `rand` stands
for the `Math.random()` draw in `[0,1)`. -/
def simTick (simulatedProgress rand : ℚ) : ℚ :=
  min (simulatedProgress + rand * 15) 95

/-- The simulated progress after a sequence of ticks with the given random
draws, starting from `0`. -/
def simProgressAfter (rands : List ℚ) : ℚ := rands.foldl simTick 0

/-- The value written into the file state by a tick:
`Math.floor(simulatedProgress)`. -/
def simDisplayed (rands : List ℚ) : Int := ⌊simProgressAfter rands⌋

/-! ## Upload (`uploadToCloudFlow`, lines 786-983) -/

/-- Outcome of one per-file upload attempt:
`ok` is a 2xx response with `success=true` (carrying `url`), `flowError` a
2xx response with `success=false` (carrying `result.error || 'Upload
failed'`), and `thrown` any exception (file read failure, network error, or
non-2xx status, lines 839-841). -/
inductive UploadOutcome
  | ok (url : String)
  | flowError (msg : String)
  | thrown (msg : String)
deriving DecidableEq, Repr

/-- The `IUploadResult` pushed for one file in the multiple-file loop
(lines 847-871). -/
def resultOfOutcome (file : FileData) (o : UploadOutcome) : UploadResultData :=
  match o with
  | .ok url => { fileName := file.name, url := url, success := true }
  | .flowError msg =>
    { fileName := file.name, url := "", success := false, error := some msg }
  | .thrown msg =>
    { fileName := file.name, url := "", success := false, error := some msg }

/-- The state update applied per result by `results.forEach` (lines 874-882):
status `completed`/`failed`, `url` kept only on success, `error` only on
failure, progress snapped to `100` or `0`. -/
def applyResultUpdate (result : UploadResultData) (fs : FileState) : FileState :=
  { fs with
    status := if result.success then .completed else .failed
    url := if result.success then some result.url else none
    error := if result.success then none else result.error.map FileError.uploadError
    progress := if result.success then 100 else 0 }

/-- Initial marking of `uploadToCloudFlow` (lines 792-794): every file of the
call is set to status `uploading` with progress `0`. -/
def markUploading (states : List FileState) (files : List FileData) :
    List FileState :=
  files.foldl
    (fun s f => updateFileState s f.name fun fs =>
      { fs with status := .uploading, progress := 0 })
    states

/-- Model of `uploadToCloudFlow(files)` (lines 786-983) as a function of the
per-file outcomes: returns the new `fileStates` and the result list.  With
`buttonAllowMultipleFiles` every file is processed sequentially; without it
only `files[0]` is uploaded (the code never touches the remaining files
again).  Callers guarantee `files` is non-empty (`processFiles` returns
early on an empty list); the `[]` case is unreachable. -/
def uploadToCloudFlow (multiple : Bool) (states : List FileState)
    (files : List FileData) (outcome : FileData → UploadOutcome) :
    List FileState × List UploadResultData :=
  let states := markUploading states files
  if multiple then
    let results := files.map fun f => resultOfOutcome f (outcome f)
    let states := results.foldl
      (fun s r => updateFileState s r.fileName (applyResultUpdate r))
      states
    (states, results)
  else
    match files with
    | [] => (states, [])
    | f :: _ =>
      let result := resultOfOutcome f (outcome f)
      let states :=
        if result.success then
          updateFileState
            (updateFileState states f.name fun fs => { fs with progress := 100 })
            f.name fun fs =>
              { fs with
                status := .completed
                url := some result.url
                progress := 100 }
        else
          updateFileState states f.name fun fs =>
            { fs with
              status := .failed
              error := result.error.map FileError.uploadError
              progress := 0 }
      (states, [result])

/-! ## Batch processing (`processFiles`, lines 1003-1111) -/

/-- Model of `processFilesAsJSON(files)` (lines 986-1000): one
`{name, size, contentBytes}` descriptor per file (file reading is assumed to
succeed; a read failure would reject the whole batch into the coarse catch
path, which the claims do not exercise). -/
def processFilesAsJSON (files : List FileData) : List CumulativeFile :=
  files.map fun file =>
    { name := file.name, size := file.size, contentBytes := file.content }

/-- The `files.forEach` marking of the JSON path (lines 1054-1056): every
processed file is set to `completed` with progress `100`. -/
def jsonMarkCompleted (states : List FileState) (files : List FileData) :
    List FileState :=
  files.foldl
    (fun s f => updateFileState s f.name fun fs =>
      { fs with status := .completed, progress := 100 })
    states

/-- True exactly when a `processFiles` call reaches the cloud branch, the
only branch performing network requests (`fetch` inside `uploadToCloudFlow`
and `loadExistingFiles`); the JSON fallback performs none. -/
def processFilesUsesNetwork (p : CloudFlowProps) (files : List FileData) : Bool :=
  files ≠ [] && isCloudFlowConfigured p

/-- Model of the successful run of `processFiles(files)` (lines 1003-1084):
the resulting component state and the final outward event.  The cloud branch
consumes the per-file upload outcomes; the JSON branch marks files completed
and either grows the cumulative batch (no record identity) or reports only
the current batch and purges the processed entries (record identity bound).
The transient `uploadStatus: "InProgress"` event and the `loadExistingFiles`
refresh (which only touches `existingFiles`) are omitted. -/
def processFiles (p : CloudFlowProps) (st : CompState) (files : List FileData)
    (outcome : FileData → UploadOutcome) : CompState × OutEvent :=
  if files = [] then (st, {}) else
  if isCloudFlowConfigured p then
    let (states, uploadResults) :=
      uploadToCloudFlow p.buttonAllowMultipleFiles st.fileStates files outcome
    let hasFailures := uploadResults.any fun r => !r.success
    let st := { st with fileStates := states }
    let st :=
      if uploadResults.any (fun r => r.success) then
        let successfulUploads :=
          (uploadResults.filter fun r => r.success).map fun r => r.fileName
        { st with
          fileStates := st.fileStates.filter fun fs =>
            !successfulUploads.contains fs.file.name
          selectedFiles := st.selectedFiles.filter fun f =>
            !successfulUploads.contains f.name }
      else st
    (st,
      { uploadResults := some uploadResults
        uploadStatus := some (if hasFailures then .failed else .completed)
        filesJSON := some (.fromResults uploadResults) })
  else
    let currentBatchFiles := processFilesAsJSON files
    let st := { st with fileStates := jsonMarkCompleted st.fileStates files }
    if recordUidEmpty p then
      let st :=
        { st with
          cumulativeFilesJSON := st.cumulativeFilesJSON ++ currentBatchFiles }
      (st,
        { filesJSON := some (.fromBatch st.cumulativeFilesJSON)
          uploadStatus := some .completed })
    else
      let st :=
        { st with
          fileStates := st.fileStates.filter fun fs =>
            !files.any fun f => f.name = fs.file.name
          selectedFiles := st.selectedFiles.filter fun f =>
            !files.any fun g => g.name = f.name }
      (st,
        { filesJSON := some (.fromBatch currentBatchFiles)
          uploadStatus := some .completed })

/-- Names reported in an outward `filesJSON` payload. -/
def payloadNames : FilesJSONPayload → List String
  | .fromResults rs => rs.map fun r => r.fileName
  | .fromBatch fs => fs.map fun f => f.name

/-! ## Remote-call plumbing (`invokeCloudFlow`, `PowerAutomateCloudFlows.ts`
lines 219-258, and the component's direct `fetch` calls) -/

/-- The fields of `ICloudFlowConfig` that `invokeCloudFlow` reads. -/
structure CloudFlowConfig where
  authToken : String := ""
  timeout : Option Nat := none
deriving DecidableEq, Repr

/-- The delay (ms) after which `invokeCloudFlow` aborts the request:
`config.timeout || 100000` (line 227).  JavaScript `||` falls back on every
falsy value, so an absent timeout and an explicit `0` both yield the
100000 ms default. -/
def invokeCloudFlowTimeoutMs (config : CloudFlowConfig) : Nat :=
  match config.timeout with
  | none => 100000
  | some ms => if ms = 0 then 100000 else ms

/-- How a `fetch` inside `invokeCloudFlow` can conclude. -/
inductive FetchConclusion
  | responded (ok : Bool) (status : Nat) (body : String)
  | aborted
  | networkFailure (msg : String)
deriving DecidableEq, Repr

/-- Model of `invokeCloudFlow` (lines 229-257): an abort (fired by the
timeout) is rethrown as the distinct message `Flow execution timed out`; a
non-2xx response as `Flow execution failed: <status>`; a network failure is
rethrown as-is. -/
def invokeCloudFlow (conclusion : FetchConclusion) : Except String String :=
  match conclusion with
  | .aborted => .error "Flow execution timed out"
  | .networkFailure msg => .error msg
  | .responded ok status body =>
    if !ok then .error ("Flow execution failed: " ++ toString status)
    else .ok body

/-- Whether the abort controller fires for a call taking `elapsedMs`: the
`setTimeout(... , config.timeout || 100000)` of lines 225-227. -/
def invokeCloudFlowAborts (config : CloudFlowConfig) (elapsedMs : Nat) : Bool :=
  elapsedMs ≥ invokeCloudFlowTimeoutMs config

/-- The shape of the options object a call site passes to `fetch`: whether
an `AbortController` signal (and hence a self-imposed timeout) is attached. -/
structure JsFetchInit where
  method : String
  contentTypeHeader : String
  hasAbortSignal : Bool
deriving DecidableEq, Repr

/-- Options of the `fetch` in `invokeCloudFlow` (lines 230-238): method,
content type, and `signal: controller.signal`. -/
def invokeCloudFlowFetchInit : JsFetchInit :=
  { method := "POST", contentTypeHeader := "application/json",
    hasAbortSignal := true }

/-- Options of the upload `fetch` in `uploadToCloudFlow`
(lines 831-837 and 917-923): no `signal`, hence no timeout. -/
def uploadFetchInit : JsFetchInit :=
  { method := "POST", contentTypeHeader := "application/json",
    hasAbortSignal := false }

/-- Options of the list `fetch` in `loadExistingFiles` (lines 291-297):
no `signal`, hence no timeout. -/
def listFilesFetchInit : JsFetchInit :=
  { method := "POST", contentTypeHeader := "application/json",
    hasAbortSignal := false }

/-- Options of the delete `fetch` in `handleDeleteExistingFile`
(lines 566-572): no `signal`, hence no timeout. -/
def deleteFetchInit : JsFetchInit :=
  { method := "POST", contentTypeHeader := "application/json",
    hasAbortSignal := false }

/-- Options of the download `fetch` in `handleViewExistingFile`
(lines 657-663): no `signal`, hence no timeout. -/
def downloadFetchInit : JsFetchInit :=
  { method := "POST", contentTypeHeader := "application/json",
    hasAbortSignal := false }

/-! ## Helper lemmas -/

theorem resultOfOutcome_fileName (f : FileData) (o : UploadOutcome) :
    (resultOfOutcome f o).fileName = f.name := by
  cases o <;> rfl

theorem resultOfOutcome_success_of_ok (f : FileData) (o : UploadOutcome)
    (h : ∃ url, o = .ok url) : (resultOfOutcome f o).success = true := by
  obtain ⟨url, rfl⟩ := h
  rfl

/-- A fold of `updateFileState`s over a list is a pointwise map: each entry
evolves independently under the per-item conditional update. -/
theorem foldl_updateFileState (l : List α) (states : List FileState)
    (key : α → String) (u : α → FileState → FileState) :
    l.foldl (fun s a => updateFileState s (key a) (u a)) states =
      states.map fun fs =>
        l.foldl (fun fs a => if fs.file.name = key a then u a fs else fs) fs := by
  induction l generalizing states with
  | nil => simp
  | cons a t ih =>
    rw [List.foldl_cons, ih]
    simp only [updateFileState, List.map_map]
    rfl

/-- Pointwise behaviour of the folds that set a fixed status and progress on
every file of a call (`markUploading`, `jsonMarkCompleted`). -/
theorem foldl_setStatusProgress (st : FileStatus) (pr : Int)
    (files : List FileData) (fs : FileState) :
    files.foldl
      (fun fs f => if fs.file.name = f.name then
        { fs with status := st, progress := pr } else fs) fs =
      (if files.any fun f => f.name = fs.file.name then
        { fs with status := st, progress := pr } else fs) := by
  induction files generalizing fs with
  | nil => simp
  | cons f t ih =>
    simp only [List.foldl_cons, List.any_cons]
    by_cases h : fs.file.name = f.name
    · rw [if_pos h, ih]
      have h2 : (f.name = fs.file.name) := h.symm
      simp [h2]
    · have h2 : ¬ (f.name = fs.file.name) := fun hh => h hh.symm
      rw [if_neg h, ih]
      simp [h2]

/-- Pointwise form of `markUploading`. -/
theorem markUploading_eq (states : List FileState) (files : List FileData) :
    markUploading states files =
      states.map fun fs =>
        if files.any fun f => f.name = fs.file.name then
          { fs with status := .uploading, progress := 0 }
        else fs := by
  unfold markUploading
  rw [foldl_updateFileState files states (fun f => f.name)
    (fun _ fs => { fs with status := .uploading, progress := 0 })]
  exact congrArg (states.map ·)
    (funext fun fs => foldl_setStatusProgress .uploading 0 files fs)

/-- Pointwise form of `jsonMarkCompleted`. -/
theorem jsonMarkCompleted_eq (states : List FileState) (files : List FileData) :
    jsonMarkCompleted states files =
      states.map fun fs =>
        if files.any fun f => f.name = fs.file.name then
          { fs with status := .completed, progress := 100 }
        else fs := by
  unfold jsonMarkCompleted
  rw [foldl_updateFileState files states (fun f => f.name)
    (fun _ fs => { fs with status := .completed, progress := 100 })]
  exact congrArg (states.map ·)
    (funext fun fs => foldl_setStatusProgress .completed 100 files fs)

/-! ## Claim C3: acceptance rule of the list-files response -/

/-- Claim C3 as stated is false on the code: a response with HTTP status 500
(`ok = false`), `success = true` and no `files` array satisfies the claimed
acceptance rule (success regardless of HTTP status) but `loadExistingFiles`
throws on it, because the code requires `response.ok` together with
`result.success` when no valid `files` array is present. -/
theorem C3_counterexample :
    listSuccessPerSpec ⟨false, true, none⟩ = true ∧
      exceptIsOk (loadExistingFilesResult ⟨false, true, none⟩) = false :=
  ⟨rfl, rfl⟩

/-- Claim C3, amended: a parsed list-files response is treated as successful
iff `response.ok` and `success` both hold, or the body contains a
syntactically valid (possibly empty) `files` array; in particular an HTTP
500 response carrying a valid `files` array is still a success. -/
theorem C3_amended (r : ListResponse) :
    exceptIsOk (loadExistingFilesResult r) =
      ((r.ok && r.success) || r.files.isSome) := by
  rcases r with ⟨ok, success, files⟩
  cases ok <;> cases success <;> cases files <;>
    simp [loadExistingFilesResult, exceptIsOk]

/-! ## Claim C5: self-imposed timeouts on remote calls -/

/-- Claim C5 as stated is false on the code: none of the four remote calls
the component actually performs (upload, list, delete, download) attaches an
abort signal or any self-imposed timeout to its `fetch`. -/
theorem C5_counterexample :
    uploadFetchInit.hasAbortSignal = false ∧
      listFilesFetchInit.hasAbortSignal = false ∧
      deleteFetchInit.hasAbortSignal = false ∧
      downloadFetchInit.hasAbortSignal = false :=
  ⟨rfl, rfl, rfl, rfl⟩

/-- Helper: the timeout message of `invokeCloudFlow` differs from every
HTTP-failure message it produces. -/
theorem flowFailed_ne_timedOut (s : String) :
    ("Flow execution failed: " ++ s) ≠ "Flow execution timed out" := by
  intro h
  have h2 := congrArg (fun t : String => t.data.take 23) h
  simp only [String.data_append] at h2
  rw [show (23 : Nat) = ("Flow execution failed: ".data).length from rfl,
    List.take_left] at h2
  exact absurd h2 (by decide)

/-- Claim C5, amended: only the `invokeCloudFlow` helper of
`PowerAutomateCloudFlows.ts` self-imposes a timeout — configurable through
`config.timeout`, with an absent or zero timeout falling back to the
100000 ms default (`config.timeout || 100000`) — and reports an aborted
call with the distinct message `Flow execution timed out`, different from
both generic network failures (passed through unchanged) and HTTP failures;
the component's own upload, list, delete and download `fetch` calls attach
no timeout at all. -/
theorem C5_amended :
    (∀ config : CloudFlowConfig, config.timeout = none →
      invokeCloudFlowTimeoutMs config = 100000) ∧
    (∀ config : CloudFlowConfig, config.timeout = some 0 →
      invokeCloudFlowTimeoutMs config = 100000) ∧
    (∀ (config : CloudFlowConfig) (ms : Nat), ms ≠ 0 →
      config.timeout = some ms → invokeCloudFlowTimeoutMs config = ms) ∧
    invokeCloudFlow .aborted = .error "Flow execution timed out" ∧
    (∀ msg, msg ≠ "Flow execution timed out" →
      invokeCloudFlow (.networkFailure msg) ≠ invokeCloudFlow .aborted) ∧
    (∀ status body, invokeCloudFlow (.responded false status body) ≠
      invokeCloudFlow .aborted) ∧
    invokeCloudFlowFetchInit.hasAbortSignal = true ∧
    uploadFetchInit.hasAbortSignal = false ∧
    listFilesFetchInit.hasAbortSignal = false ∧
    deleteFetchInit.hasAbortSignal = false ∧
    downloadFetchInit.hasAbortSignal = false := by
  refine ⟨?_, ?_, ?_, rfl, ?_, ?_, rfl, rfl, rfl, rfl, rfl⟩
  · intro config h
    simp [invokeCloudFlowTimeoutMs, h]
  · intro config h
    simp [invokeCloudFlowTimeoutMs, h]
  · intro config ms hms h
    simp [invokeCloudFlowTimeoutMs, h, hms]
  · intro msg hne h
    simp only [invokeCloudFlow, Except.error.injEq] at h
    exact hne h
  · intro status body h
    apply flowFailed_ne_timedOut (toString status)
    simpa [invokeCloudFlow] using h

/-- Witness for `C5_amended`: the default applies to an absent and to a zero
timeout, and a concrete positive timeout is used as configured. -/
theorem C5_witness :
    invokeCloudFlowTimeoutMs { authToken := "t", timeout := none } = 100000 ∧
    invokeCloudFlowTimeoutMs { authToken := "t", timeout := some 0 } = 100000 ∧
    invokeCloudFlowTimeoutMs { authToken := "t", timeout := some 5000 } = 5000 :=
  ⟨C5_amended.1 { authToken := "t", timeout := none } rfl,
    C5_amended.2.1 { authToken := "t", timeout := some 0 } rfl,
    C5_amended.2.2.1 { authToken := "t", timeout := some 5000 } 5000
      (by decide) rfl⟩

/-- Membership in an `updateFileState` result comes from an original entry,
either untouched or updated. -/
theorem mem_updateFileState {states : List FileState} {n : String}
    {u : FileState → FileState} {fs' : FileState}
    (h : fs' ∈ updateFileState states n u) :
    ∃ fs ∈ states, fs' = if fs.file.name = n then u fs else fs := by
  obtain ⟨fs, hmem, heq⟩ := List.mem_map.mp h
  exact ⟨fs, hmem, heq.symm⟩

/-! ## Claim C10: single-file mode with a multi-file list -/

/-- Claim C10 (implicit, confirmed): when `buttonAllowMultipleFiles` is
false and `uploadToCloudFlow` receives two or more files, every file of the
list is first set to `uploading` (with progress 0), but exactly one result
is returned and it concerns only the first file; every other file of the
list (with a distinct name) is left in status `uploading` in the resulting
state, never receiving a result. -/
theorem C10_claim (states : List FileState)
    (outcome : FileData → UploadOutcome) (f1 f2 : FileData)
    (rest : List FileData) :
    (uploadToCloudFlow false states (f1 :: f2 :: rest) outcome).2.length = 1 ∧
    (∀ r ∈ (uploadToCloudFlow false states (f1 :: f2 :: rest) outcome).2,
      r.fileName = f1.name) ∧
    (∀ fs ∈ markUploading states (f1 :: f2 :: rest),
      ((f1 :: f2 :: rest).any fun f => f.name = fs.file.name) = true →
        fs.status = .uploading ∧ fs.progress = 0) ∧
    (∀ g ∈ f2 :: rest, g.name ≠ f1.name →
      ∀ fs ∈ (uploadToCloudFlow false states (f1 :: f2 :: rest) outcome).1,
        fs.file.name = g.name → fs.status = .uploading ∧ fs.progress = 0) := by
  have hmark : ∀ fs ∈ markUploading states (f1 :: f2 :: rest),
      ((f1 :: f2 :: rest).any fun f => f.name = fs.file.name) = true →
        fs.status = .uploading ∧ fs.progress = 0 := by
    intro fs hfs hany
    rw [markUploading_eq] at hfs
    obtain ⟨fs0, _, heq⟩ := List.mem_map.mp hfs
    by_cases h0 : ((f1 :: f2 :: rest).any fun f => f.name = fs0.file.name) = true
    · rw [if_pos h0] at heq
      rw [← heq]
      exact ⟨rfl, rfl⟩
    · rw [if_neg h0] at heq
      rw [heq] at h0
      exact absurd hany h0
  refine ⟨?_, ?_, hmark, ?_⟩
  · cases ho : outcome f1 <;>
      simp [uploadToCloudFlow, resultOfOutcome, ho]
  · intro r hr
    have : (uploadToCloudFlow false states (f1 :: f2 :: rest) outcome).2 =
        [resultOfOutcome f1 (outcome f1)] := by
      cases (resultOfOutcome f1 (outcome f1)).success <;>
        simp [uploadToCloudFlow]
    rw [this, List.mem_singleton] at hr
    rw [hr, resultOfOutcome_fileName]
  · intro g _hg hne fs hfs hname
    have hstates : ∀ fs' ∈ (uploadToCloudFlow false states (f1 :: f2 :: rest) outcome).1,
        fs'.file.name ≠ f1.name → fs' ∈ markUploading states (f1 :: f2 :: rest) := by
      intro fs' hfs' hne'
      by_cases hsucc : (resultOfOutcome f1 (outcome f1)).success = true
      · simp only [uploadToCloudFlow, if_pos hsucc] at hfs'
        simp only [Bool.false_eq_true, if_false] at hfs'
        obtain ⟨fs1, hfs1, heq1⟩ := mem_updateFileState hfs'
        by_cases h1 : fs1.file.name = f1.name
        · rw [if_pos h1] at heq1
          rw [heq1] at hne'
          exact absurd h1 hne'
        · rw [if_neg h1] at heq1
          obtain ⟨fs2, hfs2, heq2⟩ := mem_updateFileState hfs1
          by_cases h2 : fs2.file.name = f1.name
          · rw [if_pos h2] at heq2
            rw [heq1, heq2] at hne'
            exact absurd h2 hne'
          · rw [if_neg h2] at heq2
            rw [heq1, heq2]
            exact hfs2
      · simp only [uploadToCloudFlow, Bool.not_eq_true] at hfs' ⊢
        rw [Bool.not_eq_true] at hsucc
        simp only [hsucc, Bool.false_eq_true, if_false] at hfs'
        obtain ⟨fs1, hfs1, heq1⟩ := mem_updateFileState hfs'
        by_cases h1 : fs1.file.name = f1.name
        · rw [if_pos h1] at heq1
          rw [heq1] at hne'
          exact absurd h1 hne'
        · rw [if_neg h1] at heq1
          rw [heq1]
          exact hfs1
    have hmem := hstates fs hfs (by rw [hname]; exact hne)
    refine hmark fs hmem ?_
    simp only [List.any_cons, Bool.or_eq_true]
    rcases List.mem_cons.mp _hg with hg | hg
    · right; left
      simp [hname, ← hg]
    · right; right
      exact List.any_eq_true.mpr ⟨g, hg, by simp [hname]⟩

/-- Witness for `C10_claim`: on a concrete two-file call in single-file
mode, the second file is left `uploading` with progress 0. -/
theorem C10_witness :
    (⟨⟨"b", 2, "", ""⟩, 0, .uploading, true, none, none⟩ : FileState).status =
        .uploading ∧
      (⟨⟨"b", 2, "", ""⟩, 0, .uploading, true, none, none⟩ : FileState).progress = 0 :=
  (C10_claim
    [⟨⟨"a", 1, "", ""⟩, 0, .pending, true, none, none⟩,
      ⟨⟨"b", 2, "", ""⟩, 0, .pending, true, none, none⟩]
    (fun _ => .ok "u") ⟨"a", 1, "", ""⟩ ⟨"b", 2, "", ""⟩ []).2.2.2
    ⟨"b", 2, "", ""⟩ (by decide) (by decide)
    ⟨⟨"b", 2, "", ""⟩, 0, .uploading, true, none, none⟩ (by decide) rfl

/-! ## Claim C9: missing remote configuration forces the local JSON path -/

theorem jsTruthy_eq_false (o : Option String) :
    jsTruthy o = false ↔ optStr o = "" := by
  cases o with
  | none => simp [jsTruthy, optStr]
  | some s => simp [jsTruthy, optStr]

/-- Claim C9 (confirmed): if any remote-mode prerequisite (upload, list,
delete or download URL, container path, or — after trimming — the record
identity) is absent or empty, `isCloudFlowConfigured` is false, and
`processFiles` takes the JSON path: it performs no network call, reports
`uploadStatus: Completed` with a batch-shaped `filesJSON` payload, and its
marking step sets every processed file to `completed` with progress 100. -/
theorem C9_claim (p : CloudFlowProps) (st : CompState)
    (files : List FileData) (outcome : FileData → UploadOutcome)
    (hmiss : optStr p.cloudFlowUploadUrl = "" ∨ optStr p.cloudFlowListFilesUrl = "" ∨
      optStr p.cloudFlowDeleteUrl = "" ∨ optStr p.cloudFlowDownloadUrl = "" ∨
      optStr p.containerPath = "" ∨ jsTrim (optStr p.recordUid) = "") :
    isCloudFlowConfigured p = false ∧
    processFilesUsesNetwork p files = false ∧
    (files ≠ [] →
      (processFiles p st files outcome).2.uploadStatus = some .completed ∧
      (∃ batch, (processFiles p st files outcome).2.filesJSON =
        some (.fromBatch batch)) ∧
      (∀ fs ∈ jsonMarkCompleted st.fileStates files,
        (files.any fun f => f.name = fs.file.name) = true →
          fs.status = .completed ∧ fs.progress = 100)) := by
  have hconf : isCloudFlowConfigured p = false := by
    rcases hmiss with h | h | h | h | h | h
    · simp [isCloudFlowConfigured, (jsTruthy_eq_false _).mpr h]
    · simp [isCloudFlowConfigured, (jsTruthy_eq_false _).mpr h]
    · simp [isCloudFlowConfigured, (jsTruthy_eq_false _).mpr h]
    · simp [isCloudFlowConfigured, (jsTruthy_eq_false _).mpr h]
    · simp [isCloudFlowConfigured, (jsTruthy_eq_false _).mpr h]
    · simp [isCloudFlowConfigured, h]
  refine ⟨hconf, by simp [processFilesUsesNetwork, hconf], ?_⟩
  intro hne
  have hmark : ∀ fs ∈ jsonMarkCompleted st.fileStates files,
      (files.any fun f => f.name = fs.file.name) = true →
        fs.status = .completed ∧ fs.progress = 100 := by
    intro fs hfs hany
    rw [jsonMarkCompleted_eq] at hfs
    obtain ⟨fs0, _, heq⟩ := List.mem_map.mp hfs
    by_cases h0 : (files.any fun f => f.name = fs0.file.name) = true
    · rw [if_pos h0] at heq
      rw [← heq]
      exact ⟨rfl, rfl⟩
    · rw [if_neg h0] at heq
      rw [heq] at h0
      exact absurd hany h0
  refine ⟨?_, ?_, hmark⟩ <;>
  · simp only [processFiles, if_neg hne, hconf, Bool.false_eq_true, if_false]
    by_cases hu : recordUidEmpty p = true <;> simp [hu]

/-- Witness for `C9_claim`: with all props absent, a concrete single-file
call is routed away from the network. -/
theorem C9_witness :
    isCloudFlowConfigured {} = false ∧
      processFilesUsesNetwork {} [⟨"a", 1, "", "c"⟩] = false :=
  ⟨(C9_claim {} {} [⟨"a", 1, "", "c"⟩] (fun _ => .ok "u") (Or.inl rfl)).1,
    (C9_claim {} {} [⟨"a", 1, "", "c"⟩] (fun _ => .ok "u") (Or.inl rfl)).2.1⟩

/-! ## Claim C8: `removeFile` refusal and removal rules -/

/-- Claim C8 (confirmed): `removeFile` never throws (it is a total function
of the state); when the named file is found with status `uploading`,
`completed` or `failed` the state is returned unchanged (the refusal is only
logged); and — names being unique, per the data model — an entry is actually
removed only when its status is `pending` or `invalid`. -/
theorem C8_claim (p : CloudFlowProps) (st : CompState) (fileName : String) :
    ((∃ fs, st.fileStates.find? (fun s => s.file.name = fileName) = some fs ∧
        (fs.status = .uploading ∨ fs.status = .completed ∨ fs.status = .failed)) →
      (removeFile p st fileName).1 = st) ∧
    ((st.fileStates.map fun fs => fs.file.name).Nodup →
      ∀ fs ∈ st.fileStates, fs ∉ (removeFile p st fileName).1.fileStates →
        fs.file.name = fileName ∧
          (fs.status = .pending ∨ fs.status = .invalid)) := by
  constructor
  · rintro ⟨fs, hfind, hstatus⟩
    have hblock : (fs.status == FileStatus.uploading ||
        fs.status == FileStatus.completed || fs.status == FileStatus.failed) = true := by
      rcases hstatus with h | h | h <;> simp [h]
    simp [removeFile, hfind, hblock]
  · intro hnodup fs hmem hnot
    by_cases hblocked :
        (match st.fileStates.find? (fun s => s.file.name = fileName) with
          | some fs =>
            fs.status == FileStatus.uploading || fs.status == FileStatus.completed ||
              fs.status == FileStatus.failed
          | none => false) = true
    · exfalso
      apply hnot
      simp only [removeFile, hblocked, if_true]
      exact hmem
    · have hfilter : (removeFile p st fileName).1.fileStates =
          st.fileStates.filter fun fs => fs.file.name ≠ fileName := by
        simp only [removeFile, hblocked, Bool.false_eq_true, if_false]
        by_cases hu : recordUidEmpty p = true <;> simp [hu]
      rw [hfilter] at hnot
      have hname : fs.file.name = fileName := by
        by_contra hne
        exact hnot (List.mem_filter.mpr ⟨hmem, by simpa using hne⟩)
      refine ⟨hname, ?_⟩
      obtain ⟨fs0, hfind⟩ : ∃ fs0,
          st.fileStates.find? (fun s => s.file.name = fileName) = some fs0 := by
        cases hf : st.fileStates.find? (fun s => s.file.name = fileName) with
        | none =>
          exact absurd (by simpa using hname)
            (List.find?_eq_none.mp hf fs hmem)
        | some fs0 => exact ⟨fs0, rfl⟩
      have hfs0name : fs0.file.name = fileName := by
        simpa using List.find?_some hfind
      have hfs0mem : fs0 ∈ st.fileStates := List.mem_of_find?_eq_some hfind
      have heq : fs = fs0 :=
        List.inj_on_of_nodup_map hnodup hmem hfs0mem (by rw [hname, hfs0name])
      rw [hfind] at hblocked
      simp only [Bool.or_eq_true, beq_iff_eq, not_or, Bool.not_eq_true] at hblocked
      rw [heq]
      cases h0 : fs0.status <;> simp_all

/-- Witness for `C8_claim`: removing an `uploading` file from a concrete
state leaves the state unchanged. -/
theorem C8_witness :
    (removeFile {}
      ⟨[⟨⟨"a", 1, "", ""⟩, 50, .uploading, true, none, none⟩], [], []⟩ "a").1 =
      ⟨[⟨⟨"a", 1, "", ""⟩, 50, .uploading, true, none, none⟩], [], []⟩ :=
  (C8_claim {}
    ⟨[⟨⟨"a", 1, "", ""⟩, 50, .uploading, true, none, none⟩], [], []⟩ "a").1
    ⟨⟨⟨"a", 1, "", ""⟩, 50, .uploading, true, none, none⟩, by decide, Or.inl rfl⟩

/-! ## Claim C7: cumulative batch growth without a bound record identity -/

theorem notConfigured_of_recordUidEmpty (p : CloudFlowProps)
    (h : recordUidEmpty p = true) : isCloudFlowConfigured p = false := by
  simp only [recordUidEmpty, Bool.or_eq_true, Bool.not_eq_true',
    decide_eq_true_eq] at h
  rcases h with h | h
  · simp [isCloudFlowConfigured, h]
  · simp [isCloudFlowConfigured, h]

/-- With no bound record identity, one `processFiles` call appends exactly
one cumulative entry per processed file. -/
theorem processFiles_cumulative (p : CloudFlowProps) (st : CompState)
    (files : List FileData) (outcome : FileData → UploadOutcome)
    (huid : recordUidEmpty p = true) :
    ((processFiles p st files outcome).1).cumulativeFilesJSON =
      st.cumulativeFilesJSON ++ processFilesAsJSON files := by
  by_cases hne : files = []
  · simp [processFiles, hne, processFilesAsJSON]
  · simp [processFiles, hne, notConfigured_of_recordUidEmpty p huid, huid]

/-- Claim C7 (confirmed): with no record identity bound and a cleared
cumulative batch, two successive successful `processFiles` calls leave a
cumulative batch with one entry per file across both calls; the cumulative
batch never shrinks under `processFiles`, and only `clearNewFiles`, the
per-file `removeFile`, or the context-change reset make it shrink or
reset. -/
theorem C7_claim (p : CloudFlowProps) (st : CompState)
    (files1 files2 : List FileData) (o1 o2 : FileData → UploadOutcome)
    (huid : recordUidEmpty p = true) (hcum : st.cumulativeFilesJSON = []) :
    ((processFiles p (processFiles p st files1 o1).1 files2 o2).1).cumulativeFilesJSON.length
      = files1.length + files2.length ∧
    (∀ (st' : CompState) (files' : List FileData) (o' : FileData → UploadOutcome),
      st'.cumulativeFilesJSON.length ≤
        ((processFiles p st' files' o').1).cumulativeFilesJSON.length) ∧
    (∀ st' : CompState, ((clearNewFiles p st').1).cumulativeFilesJSON = []) ∧
    (∀ st' : CompState, (contextChangeReset st').cumulativeFilesJSON = []) ∧
    (∀ (st' : CompState) (n : String),
      ((removeFile p st' n).1).cumulativeFilesJSON = st'.cumulativeFilesJSON ∨
      ((removeFile p st' n).1).cumulativeFilesJSON =
        st'.cumulativeFilesJSON.filter fun f => f.name ≠ n) := by
  refine ⟨?_, ?_, ?_, ?_, ?_⟩
  · rw [processFiles_cumulative p _ files2 o2 huid,
      processFiles_cumulative p st files1 o1 huid, hcum]
    simp [processFilesAsJSON]
  · intro st' files' o'
    by_cases hne : files' = []
    · simp [processFiles, hne]
    · by_cases hconf : isCloudFlowConfigured p = true
      · simp only [processFiles, if_neg hne, hconf, if_true]
        by_cases hany :
            ((uploadToCloudFlow p.buttonAllowMultipleFiles st'.fileStates files' o').2.any
              fun r => r.success) = true <;>
          simp [hany]
      · rw [processFiles_cumulative p st' files' o'
          (by simp_all [recordUidEmpty, isCloudFlowConfigured])]
        simp
  · intro st'
    simp [clearNewFiles, huid]
  · intro st'
    simp [contextChangeReset]
  · intro st' n
    by_cases hb :
        (match st'.fileStates.find? (fun s => s.file.name = n) with
          | some fs =>
            fs.status == FileStatus.uploading || fs.status == FileStatus.completed ||
              fs.status == FileStatus.failed
          | none => false) = true
    · left; simp [removeFile, hb]
    · right; simp [removeFile, hb, huid]

/-- Witness for `C7_claim`: two concrete one-file calls starting from an
empty cumulative batch yield a cumulative batch of length two. -/
theorem C7_witness :
    ((processFiles {} (processFiles {} {} [⟨"a", 1, "", "c"⟩] (fun _ => .ok "u")).1
      [⟨"b", 2, "", "d"⟩] (fun _ => .ok "u")).1).cumulativeFilesJSON.length = 2 :=
  (C7_claim {} {} [⟨"a", 1, "", "c"⟩] [⟨"b", 2, "", "d"⟩]
    (fun _ => .ok "u") (fun _ => .ok "u") rfl rfl).1

/-! ## Claim C6: bound record identity leaves no processed file behind -/

/-- Claim C6 (confirmed): when a record identity is bound (and, in cloud
mode, multiple-file upload is on and every upload of the call succeeds), a
completed `processFiles` call leaves none of the processed files in the
local file list, does not grow the cumulative batch, and reports outward
exactly one entry per file of the current call. -/
theorem C6_claim (p : CloudFlowProps) (st : CompState)
    (files : List FileData) (outcome : FileData → UploadOutcome)
    (huid : recordUidEmpty p = false)
    (hmult : isCloudFlowConfigured p = true → p.buttonAllowMultipleFiles = true)
    (hok : ∀ f ∈ files, ∃ url, outcome f = .ok url) :
    (∀ fs ∈ ((processFiles p st files outcome).1).fileStates,
      ∀ f ∈ files, fs.file.name ≠ f.name) ∧
    ((processFiles p st files outcome).1).cumulativeFilesJSON =
      st.cumulativeFilesJSON ∧
    (∀ pl, (processFiles p st files outcome).2.filesJSON = some pl →
      payloadNames pl = files.map fun f => f.name) := by
  by_cases hne : files = []
  · subst hne
    refine ⟨?_, ?_, ?_⟩ <;> simp [processFiles]
  · by_cases hconf : isCloudFlowConfigured p = true
    · -- cloud branch, multiple-file loop, all uploads succeed
      have hm := hmult hconf
      have hallsucc : ∀ r ∈ (uploadToCloudFlow p.buttonAllowMultipleFiles
          st.fileStates files outcome).2, r.success = true := by
        rw [hm]
        intro r hr
        simp only [uploadToCloudFlow, markUploading] at hr
        obtain ⟨f, hf, hfr⟩ := List.mem_map.mp hr
        rw [← hfr]
        exact resultOfOutcome_success_of_ok f (outcome f) (hok f hf)
      have hresults : (uploadToCloudFlow p.buttonAllowMultipleFiles
          st.fileStates files outcome).2 =
          files.map fun f => resultOfOutcome f (outcome f) := by
        rw [hm]
        simp [uploadToCloudFlow]
      have hnames : ((uploadToCloudFlow p.buttonAllowMultipleFiles
          st.fileStates files outcome).2.map fun r => r.fileName) =
          files.map fun f => f.name := by
        rw [hresults, List.map_map]
        exact List.map_congr_left fun f _ => resultOfOutcome_fileName f (outcome f)
      have hany : ((uploadToCloudFlow p.buttonAllowMultipleFiles
          st.fileStates files outcome).2.any fun r => r.success) = true := by
        obtain ⟨f, t, rfl⟩ : ∃ f t, files = f :: t := by
          cases files with
          | nil => exact absurd rfl hne
          | cons f t => exact ⟨f, t, rfl⟩
        rw [hresults]
        simp only [List.map_cons, List.any_cons, Bool.or_eq_true]
        left
        exact resultOfOutcome_success_of_ok f (outcome f) (hok f (by simp))
      have hfiltersucc : ((uploadToCloudFlow p.buttonAllowMultipleFiles
          st.fileStates files outcome).2.filter fun r => r.success) =
          (uploadToCloudFlow p.buttonAllowMultipleFiles st.fileStates files outcome).2 :=
        List.filter_eq_self.mpr hallsucc
      refine ⟨?_, ?_, ?_⟩
      · intro fs hfs f hf
        simp only [processFiles, if_neg hne, hconf, if_true, hany, if_true] at hfs
        rw [hfiltersucc] at hfs
        have hmemf := (List.mem_filter.mp hfs).2
        rw [hnames] at hmemf
        simp only [Bool.not_eq_true'] at hmemf
        intro heq
        rw [List.contains_eq_any_beq] at hmemf
        have : (files.map fun f => f.name).any (fun n => fs.file.name == n) = true := by
          refine List.any_eq_true.mpr ⟨f.name, List.mem_map.mpr ⟨f, hf, rfl⟩, ?_⟩
          simp [heq]
        rw [this] at hmemf
        exact absurd hmemf (by simp)
      · simp [processFiles, if_neg hne, hconf, hany]
      · intro pl hpl
        simp only [processFiles, if_neg hne, hconf, if_true, hany] at hpl
        simp only [Option.some.injEq] at hpl
        rw [← hpl]
        simpa [payloadNames] using hnames
    · -- JSON fallback with a bound record identity
      refine ⟨?_, ?_, ?_⟩
      · intro fs hfs f hf
        simp only [processFiles, if_neg hne, hconf, Bool.false_eq_true, if_false,
          huid, Bool.false_eq_true, if_false] at hfs
        have hp := (List.mem_filter.mp hfs).2
        simp only [Bool.not_eq_true'] at hp
        intro heq
        have : (files.any fun g => g.name = fs.file.name) = true :=
          List.any_eq_true.mpr ⟨f, hf, by simp [heq]⟩
        rw [this] at hp
        exact absurd hp (by simp)
      · simp [processFiles, if_neg hne, hconf, huid]
      · intro pl hpl
        simp only [processFiles, if_neg hne, hconf, Bool.false_eq_true, if_false,
          huid, Option.some.injEq] at hpl
        rw [← hpl]
        simp [payloadNames, processFilesAsJSON, List.map_map]

/-- Witness for `C6_claim`: a concrete call with a bound record identity in
JSON mode leaves the cumulative batch untouched. -/
theorem C6_witness :
    ((processFiles { recordUid := some "rec" } {} [⟨"a", 1, "", "c"⟩]
      (fun _ => .ok "u")).1).cumulativeFilesJSON = ({} : CompState).cumulativeFilesJSON :=
  (C6_claim { recordUid := some "rec" } {} [⟨"a", 1, "", "c"⟩] (fun _ => .ok "u")
    (by decide) (fun h => by simp [isCloudFlowConfigured, jsTruthy] at h)
    (fun f _ => ⟨"u", rfl⟩)).2.1

/-! ## Claim C4: synthetic progress bounds and result snapping -/

/-- The simulated progress never exceeds the cap once it starts below it. -/
theorem simProgress_le (rands : List ℚ) (p : ℚ) (hp : p ≤ 95) :
    rands.foldl simTick p ≤ 95 := by
  induction rands generalizing p with
  | nil => simpa using hp
  | cons r t ih =>
    exact ih (simTick p r) (min_le_right _ _)

/-- Claim C4 as stated is false on the code: `Math.min(progress + inc, 95)`
caps the simulated progress at 95 but lets it reach exactly 95.  With ten
ticks whose `Math.random()` draws are all `2/3` (each increment `10`, within
the possible `[0,15)` range), the simulated progress and the displayed
floored value both become exactly 95 while the upload is still in flight. -/
theorem C4_counterexample :
    (0 ≤ ((2 : ℚ)/3) ∧ ((2 : ℚ)/3) < 1) ∧
    simProgressAfter (List.replicate 10 ((2 : ℚ)/3)) = 95 ∧
    simDisplayed (List.replicate 10 ((2 : ℚ)/3)) = 95 := by
  have h : simProgressAfter (List.replicate 10 ((2 : ℚ)/3)) = 95 := by
    simp only [simProgressAfter, List.replicate, List.foldl, simTick]
    norm_num [min_def]
  refine ⟨⟨by norm_num, by norm_num⟩, h, ?_⟩
  rw [simDisplayed, h]
  norm_num

/-- Claim C4, amended: the simulated progress of an in-flight file never
exceeds 95 (it may reach exactly 95) and in particular stays strictly below
100, for every sequence of random draws; once the real result arrives, the
per-result update snaps progress to exactly 100 on success and 0 on failure,
in both the multiple-file loop and the single-file branch. -/
theorem C4_amended :
    (∀ rands : List ℚ, simProgressAfter rands ≤ 95 ∧
      simProgressAfter rands < 100 ∧ simDisplayed rands ≤ 95) ∧
    (∀ (result : UploadResultData) (fs : FileState),
      (applyResultUpdate result fs).progress =
        if result.success then 100 else 0) ∧
    (∀ (states : List FileState) (f : FileData) (rest : List FileData)
        (outcome : FileData → UploadOutcome),
      ∀ fs ∈ (uploadToCloudFlow false states (f :: rest) outcome).1,
        fs.file.name = f.name →
          fs.progress =
            if (resultOfOutcome f (outcome f)).success then 100 else 0) := by
  refine ⟨?_, ?_, ?_⟩
  · intro rands
    have h95 : simProgressAfter rands ≤ 95 := simProgress_le rands 0 (by norm_num)
    refine ⟨h95, lt_of_le_of_lt h95 (by norm_num), ?_⟩
    have := Int.floor_le_floor (α := ℚ) h95
    simpa [simDisplayed] using this
  · intro result fs
    rfl
  · intro states f rest outcome fs hfs hname
    by_cases hsucc : (resultOfOutcome f (outcome f)).success = true
    · simp only [uploadToCloudFlow, hsucc, if_true] at hfs
      obtain ⟨fs1, hfs1, heq1⟩ := mem_updateFileState hfs
      by_cases h1 : fs1.file.name = f.name
      · rw [if_pos h1] at heq1
        rw [heq1, hsucc]
        simp
      · rw [if_neg h1] at heq1
        rw [heq1] at hname
        obtain ⟨fs2, _, heq2⟩ := mem_updateFileState hfs1
        by_cases h2 : fs2.file.name = f.name
        · rw [if_pos h2] at heq2
          rw [heq2] at hname h1
          exact absurd hname h1
        · rw [if_neg h2] at heq2
          rw [heq2] at hname h1
          exact absurd hname h1
    · rw [Bool.not_eq_true] at hsucc
      simp only [uploadToCloudFlow, hsucc, Bool.false_eq_true, if_false] at hfs
      obtain ⟨fs1, _, heq1⟩ := mem_updateFileState hfs
      by_cases h1 : fs1.file.name = f.name
      · rw [if_pos h1] at heq1
        rw [heq1, hsucc]
        simp
      · rw [if_neg h1] at heq1
        rw [heq1] at hname
        exact absurd hname h1

/-- Witness for `C4_amended`: after a concrete successful single-file
upload, the file's progress is exactly 100. -/
theorem C4_witness :
    (⟨⟨"a", 1, "", ""⟩, 100, .completed, true, none, some "u"⟩ : FileState).progress =
      if (resultOfOutcome ⟨"a", 1, "", ""⟩ ((fun _ => .ok "u") (⟨"a", 1, "", ""⟩ : FileData))).success
        then 100 else 0 :=
  C4_amended.2.2 [⟨⟨"a", 1, "", ""⟩, 0, .pending, true, none, none⟩]
    ⟨"a", 1, "", ""⟩ [] (fun _ => .ok "u")
    ⟨⟨"a", 1, "", ""⟩, 100, .completed, true, none, some "u"⟩ (by decide) rfl

/-! ## Claim C1: the running total of the size check -/

/-- `validateFileType` is the type check followed by the size check. -/
theorem validateFileType_split (config : AdminConfig) (states : List FileState)
    (f : FileData) (ex : List FileData) :
    validateFileType config states f ex =
      if fileTypeAccepted config.allowedFileTypes f then
        sizeCheck config states f ex
      else
        ⟨false, some (.typeNotAllowed config.allowedFileTypes)⟩ := by
  unfold validateFileType fileTypeAccepted
  repeat' split
  all_goals try simp_all
  rename_i hne hcond
  intro hlen hall
  rcases hcond with hnil | ⟨x, hx, hm⟩
  · rw [hnil] at hlen
    simp at hlen
  · exact absurd hm (by simp [hall x hx])

/-- With a positive limit, the size check accepts exactly when the sum of
valid non-failed pending sizes, the accumulated batch sizes and the
candidate size stays within the limit in bytes. -/
theorem sizeCheck_isValid (config : AdminConfig) (states : List FileState)
    (f : FileData) (ex : List FileData) (h : 0 < config.maxTotalFileSizeMB) :
    (sizeCheck config states f ex).isValid =
      decide (sumValidNonFailedSizes states + (ex.map fun b => b.size).sum + f.size ≤
        config.maxTotalFileSizeMB * 1024 * 1024) := by
  have hsum : ((((states.filter fun fs => fs.isValid && fs.status ≠ .failed).map
      fun fs => fs.file) ++ ex).map fun g => g.size).sum =
      sumValidNonFailedSizes states + (ex.map fun b => b.size).sum := by
    rw [List.map_append, List.sum_append, List.map_map]
    rfl
  simp only [sizeCheck, h, if_true]
  rw [hsum]
  by_cases hgt : sumValidNonFailedSizes states + (ex.map fun b => b.size).sum + f.size >
      config.maxTotalFileSizeMB * 1024 * 1024
  · simp only [hgt, if_true]
    simp [Nat.not_le_of_lt hgt]
  · simp only [hgt, if_false]
    simp [Nat.le_of_not_lt hgt]

/-- Entries produced by the `addFilesToState` loop are `pending` when valid
and `invalid` otherwise, and the valid batch total never passes the limit. -/
theorem addFilesLoop_invariant (config : AdminConfig) (states : List FileState)
    (h : 0 < config.maxTotalFileSizeMB) (files : List FileData)
    (acc : List FileState)
    (hpend : ∀ fs ∈ acc, fs.isValid = true → fs.status = .pending)
    (hbound : sumValidNonFailedSizes states + sumValidSizes acc ≤
      config.maxTotalFileSizeMB * 1024 * 1024) :
    (∀ fs ∈ addFilesLoop config states files acc,
      fs.isValid = true → fs.status = .pending) ∧
    sumValidNonFailedSizes states + sumValidSizes (addFilesLoop config states files acc) ≤
      config.maxTotalFileSizeMB * 1024 * 1024 := by
  induction files generalizing acc with
  | nil => exact ⟨hpend, hbound⟩
  | cons file rest ih =>
    simp only [addFilesLoop]
    set validation :=
      validateFileType config states file
        ((acc.filter fun fs => fs.isValid).map fun fs => fs.file) with hval
    refine ih (acc ++ [mkNewFileState file validation]) ?_ ?_
    · intro fs hfs hv
      rcases List.mem_append.mp hfs with hfs | hfs
      · exact hpend fs hfs hv
      · rw [List.mem_singleton] at hfs
        rw [hfs] at hv ⊢
        simp only [mkNewFileState] at hv ⊢
        rw [hv]
        rfl
    · by_cases hv : validation.isValid = true
      · have hsizes : sumValidNonFailedSizes states +
            ((((acc.filter fun fs => fs.isValid).map fun fs => fs.file).map
              fun b => b.size).sum) + file.size ≤
            config.maxTotalFileSizeMB * 1024 * 1024 := by
          have := hval ▸ hv
          rw [validateFileType_split] at this
          by_cases hty : fileTypeAccepted config.allowedFileTypes file = true
          · rw [if_pos hty, sizeCheck_isValid config states file _ h] at this
            simpa using this
          · rw [Bool.not_eq_true] at hty
            rw [hty] at this
            simp at this
        have hbatch : (((acc.filter fun fs => fs.isValid).map fun fs => fs.file).map
            fun b => b.size).sum = sumValidSizes acc := by
          rw [List.map_map]
          rfl
        have hnew : sumValidSizes (acc ++ [mkNewFileState file validation]) =
            sumValidSizes acc + file.size := by
          simp only [sumValidSizes, List.filter_append, List.map_append,
            List.sum_append]
          simp [mkNewFileState, hv]
        rw [hnew]
        rw [hbatch] at hsizes
        omega
      · have hnew : sumValidSizes (acc ++ [mkNewFileState file validation]) =
            sumValidSizes acc := by
          simp only [sumValidSizes, List.filter_append, List.map_append,
            List.sum_append]
          rw [Bool.not_eq_true] at hv
          simp [mkNewFileState, hv]
        rw [hnew]
        exact hbound

theorem sumValidNonFailedSizes_append (a b : List FileState) :
    sumValidNonFailedSizes (a ++ b) =
      sumValidNonFailedSizes a + sumValidNonFailedSizes b := by
  simp [sumValidNonFailedSizes, List.filter_append, List.map_append,
    List.sum_append]

theorem sumValidNonFailedSizes_of_pending (l : List FileState)
    (h : ∀ fs ∈ l, fs.isValid = true → fs.status = .pending) :
    sumValidNonFailedSizes l = sumValidSizes l := by
  unfold sumValidNonFailedSizes sumValidSizes
  rw [List.filter_congr fun fs hfs => ?_]
  cases hv : fs.isValid with
  | false => simp
  | true =>
    rw [h fs hfs hv]
    simp

/-- Claim C1 as stated is false on the code: with a 1 MB limit, a known
existing remote file of 2 MiB and an empty pending list, a 1000000-byte
candidate is accepted by `addFilesToState` (the size check never consults
the remote files), even though the claimed running total — valid pending
plus existing remote plus batch plus candidate — already exceeds the limit,
so the claimed invariant `valid pending + existing remote ≤ limit` is
violated immediately after acceptance. -/
theorem C1_counterexample :
    ((addFilesToState ⟨1, "*"⟩ [] [⟨"a.txt", 1000000, "", ""⟩]).map fun fs =>
      (fs.isValid, fs.status)) = [(true, .pending)] ∧
    1 * 1024 * 1024 <
      sumValidNonFailedSizes (addFilesToState ⟨1, "*"⟩ [] [⟨"a.txt", 1000000, "", ""⟩]) +
        sumExistingRemoteSizes [⟨"big.bin", 2097152, "u", "2024-01-01"⟩] := by
  constructor
  · rfl
  · decide

/-- Claim C1, amended: with a positive limit, the running total checked by
`validateFileType` is the sum of the valid non-failed pending sizes, the
sizes accepted earlier in the same `addFilesToState` batch, and the
candidate size — existing remote files are not included — and the candidate
is rejected exactly when this total exceeds the limit (type check
permitting); consequently, immediately after `addFilesToState` the sum of
valid pending sizes alone (without the remote files) stays within the limit
whenever it did before. -/
theorem C1_amended (config : AdminConfig) (states : List FileState)
    (f : FileData) (batch files : List FileData)
    (h : 0 < config.maxTotalFileSizeMB) :
    ((validateFileType config states f batch).isValid =
      (fileTypeAccepted config.allowedFileTypes f &&
        decide (sumValidNonFailedSizes states + (batch.map fun b => b.size).sum + f.size ≤
          config.maxTotalFileSizeMB * 1024 * 1024))) ∧
    (sumValidNonFailedSizes states ≤ config.maxTotalFileSizeMB * 1024 * 1024 →
      sumValidNonFailedSizes (addFilesToState config states files) ≤
        config.maxTotalFileSizeMB * 1024 * 1024) := by
  constructor
  · rw [validateFileType_split]
    by_cases hty : fileTypeAccepted config.allowedFileTypes f = true
    · rw [if_pos hty, hty, sizeCheck_isValid config states f batch h]
      simp
    · rw [Bool.not_eq_true] at hty
      rw [hty]
      simp
  · intro hbound
    have hloop := addFilesLoop_invariant config states h files []
      (by intro fs hfs; simp at hfs)
      (by simpa [sumValidSizes] using hbound)
    rw [addFilesToState, sumValidNonFailedSizes_append,
      sumValidNonFailedSizes_of_pending _ hloop.1]
    exact hloop.2

/-- Witness for `C1_amended`: on a concrete accepted batch the valid pending
total stays within the limit. -/
theorem C1_witness :
    sumValidNonFailedSizes
      (addFilesToState ⟨1, "*"⟩ [] [⟨"a.txt", 1000000, "", ""⟩]) ≤
      1 * 1024 * 1024 :=
  (C1_amended ⟨1, "*"⟩ [] ⟨"a.txt", 1000000, "", ""⟩ []
    [⟨"a.txt", 1000000, "", ""⟩] (by decide)).2 (by decide)

/-! ## Claim C2: separator, case, and leading-dot invariance -/

theorem jsCharToLower_sep (c : Char) :
    isSepChar (jsCharToLower c) = isSepChar c := by
  unfold jsCharToLower
  split <;> first | rfl | decide

theorem jsCharToLower_ws (c : Char) :
    isWsChar (jsCharToLower c) = isWsChar c := by
  unfold jsCharToLower
  split <;> first | rfl | decide

theorem jsCharToLower_mem_cases (c : Char) :
    jsCharToLower c = c ∨ jsCharToLower c ∈
      ['a', 'b', 'c', 'd', 'e', 'f', 'g', 'h', 'i', 'j', 'k', 'l', 'm',
       'n', 'o', 'p', 'q', 'r', 's', 't', 'u', 'v', 'w', 'x', 'y', 'z'] := by
  unfold jsCharToLower
  split <;> first | (left ; rfl) | (right ; decide)

theorem jsCharToLower_idem (c : Char) :
    jsCharToLower (jsCharToLower c) = jsCharToLower c := by
  have hlow : ∀ d ∈ ['a', 'b', 'c', 'd', 'e', 'f', 'g', 'h', 'i', 'j', 'k',
      'l', 'm', 'n', 'o', 'p', 'q', 'r', 's', 't', 'u', 'v', 'w', 'x', 'y',
      'z'], jsCharToLower d = d := by decide
  rcases jsCharToLower_mem_cases c with h | h
  · rw [h]
    exact h
  · exact hlow _ h

theorem jsCharToLower_eq_star (c : Char) :
    jsCharToLower c = '*' ↔ c = '*' := by
  unfold jsCharToLower
  split <;> first | rfl | (constructor <;> intro h <;> simp_all) | decide

theorem jsCharToLower_eq_slash (c : Char) :
    jsCharToLower c = '/' ↔ c = '/' := by
  unfold jsCharToLower
  split <;> first | rfl | (constructor <;> intro h <;> simp_all) | decide

theorem jsCharToLower_eq_dot (c : Char) :
    jsCharToLower c = '.' ↔ c = '.' := by
  unfold jsCharToLower
  split <;> first | rfl | (constructor <;> intro h <;> simp_all) | decide


theorem swapChar_sep (c : Char) :
    isSepChar (if c = ';' then ',' else c) = isSepChar c := by
  by_cases h : c = ';' <;> simp [h, isSepChar]

theorem swapChar_ws (c : Char) :
    isWsChar (if c = ';' then ',' else c) = isWsChar c := by
  by_cases h : c = ';' <;> simp [h, isWsChar]

theorem swapChar_eq_star (c : Char) :
    ((if c = ';' then ',' else c) = '*') ↔ c = '*' := by
  by_cases h : c = ';' <;> simp [h]

theorem swapChar_id_of_not_sep (c : Char) (h : isSepChar c = false) :
    (if c = ';' then ',' else c) = c := by
  simp only [isSepChar, Bool.or_eq_false_iff, decide_eq_false_iff_not] at h
  simp [h.1]

theorem splitSepChars_ne_nil (l : List Char) : splitSepChars l ≠ [] := by
  induction l with
  | nil => simp [splitSepChars]
  | cons c rest ih =>
    simp only [splitSepChars]
    by_cases h : isSepChar c = true
    · simp [h]
    · simp only [h, Bool.false_eq_true, if_false]
      cases hs : splitSepChars rest with
      | nil => exact absurd hs ih
      | cons t ts => simp

theorem splitSepChars_map_swap (l : List Char) :
    splitSepChars (l.map fun c => if c = ';' then ',' else c) =
      splitSepChars l := by
  induction l with
  | nil => rfl
  | cons c rest ih =>
    simp only [List.map_cons, splitSepChars, swapChar_sep, ih]
    by_cases h : isSepChar c = true
    · simp [h]
    · simp only [h, Bool.false_eq_true, if_false]
      rw [swapChar_id_of_not_sep c (by simpa using h)]

theorem splitSepChars_map_lower (l : List Char) :
    splitSepChars (l.map jsCharToLower) =
      (splitSepChars l).map (List.map jsCharToLower) := by
  induction l with
  | nil => rfl
  | cons c rest ih =>
    simp only [List.map_cons, splitSepChars, jsCharToLower_sep, ih]
    by_cases h : isSepChar c = true
    · simp [h]
    · simp only [h, Bool.false_eq_true, if_false]
      obtain ⟨t, ts, hts⟩ : ∃ t ts, splitSepChars rest = t :: ts := by
        cases hs : splitSepChars rest with
        | nil => exact absurd hs (splitSepChars_ne_nil rest)
        | cons t ts => exact ⟨t, ts, rfl⟩
      rw [hts]
      simp

theorem splitSepChars_eq_self (l : List Char)
    (h : ∀ c ∈ l, isSepChar c = false) : splitSepChars l = [l] := by
  induction l with
  | nil => rfl
  | cons c rest ih =>
    simp only [splitSepChars, h c (by simp), Bool.false_eq_true, if_false]
    rw [ih fun d hd => h d (by simp [hd])]

theorem dropWhile_isWs_eq_self (l : List Char)
    (h : ∀ c ∈ l, isWsChar c = false) : l.dropWhile isWsChar = l := by
  cases l with
  | nil => rfl
  | cons c rest => simp [List.dropWhile_cons, h c (by simp)]

theorem trimChars_eq_self (l : List Char)
    (h : ∀ c ∈ l, isWsChar c = false) : trimChars l = l := by
  unfold trimChars
  rw [dropWhile_isWs_eq_self l h,
    dropWhile_isWs_eq_self l.reverse fun c hc => h c (List.mem_reverse.mp hc),
    List.reverse_reverse]

theorem trimChars_map (f : Char → Char)
    (hf : ∀ c, isWsChar (f c) = isWsChar c) (l : List Char) :
    trimChars (l.map f) = (trimChars l).map f := by
  have hp : isWsChar ∘ f = isWsChar := funext fun c => hf c
  unfold trimChars
  rw [List.dropWhile_map, hp, ← List.map_reverse, List.dropWhile_map, hp,
    ← List.map_reverse]

theorem map_eq_star (f : Char → Char)
    (hf : ∀ c, (f c = '*') ↔ (c = '*')) (l : List Char) :
    (l.map f = ['*']) ↔ l = ['*'] := by
  cases l with
  | nil => simp
  | cons c rest =>
    cases rest with
    | nil => simpa using hf c
    | cons d t => simp


theorem string_eq_iff_data (s t : String) : s = t ↔ s.data = t.data :=
  ⟨fun h => h ▸ rfl, String.ext⟩

theorem jsToLower_eq_empty (s : String) : jsToLower s = "" ↔ s = "" := by
  rw [string_eq_iff_data, string_eq_iff_data]
  show s.data.map jsCharToLower = [] ↔ s.data = []
  simp

theorem jsTrim_lower_eq_empty (s : String) :
    jsTrim (jsToLower s) = "" ↔ jsTrim s = "" := by
  rw [string_eq_iff_data, string_eq_iff_data]
  show trimChars (s.data.map jsCharToLower) = [] ↔ trimChars s.data = []
  rw [trimChars_map _ jsCharToLower_ws]
  simp

theorem jsTrim_lower_eq_star (s : String) :
    jsTrim (jsToLower s) = "*" ↔ jsTrim s = "*" := by
  rw [string_eq_iff_data, string_eq_iff_data]
  show trimChars (s.data.map jsCharToLower) = ['*'] ↔ trimChars s.data = ['*']
  rw [trimChars_map _ jsCharToLower_ws]
  exact map_eq_star _ jsCharToLower_eq_star _

theorem swap_eq_empty (s : String) : swapSemisToCommas s = "" ↔ s = "" := by
  rw [string_eq_iff_data, string_eq_iff_data]
  show s.data.map _ = [] ↔ s.data = []
  simp

theorem jsTrim_swap_eq_empty (s : String) :
    jsTrim (swapSemisToCommas s) = "" ↔ jsTrim s = "" := by
  rw [string_eq_iff_data, string_eq_iff_data]
  show trimChars (s.data.map fun c => if c = ';' then ',' else c) = [] ↔
    trimChars s.data = []
  rw [trimChars_map _ swapChar_ws]
  simp

theorem jsTrim_swap_eq_star (s : String) :
    jsTrim (swapSemisToCommas s) = "*" ↔ jsTrim s = "*" := by
  rw [string_eq_iff_data, string_eq_iff_data]
  show trimChars (s.data.map fun c => if c = ';' then ',' else c) = ['*'] ↔
    trimChars s.data = ['*']
  rw [trimChars_map _ swapChar_ws]
  exact map_eq_star _ swapChar_eq_star _

theorem jsToLower_jsTrim_lower (tok : List Char) :
    jsToLower (jsTrim ⟨tok.map jsCharToLower⟩) = jsToLower (jsTrim ⟨tok⟩) := by
  show (⟨(trimChars (tok.map jsCharToLower)).map jsCharToLower⟩ : String) =
    ⟨(trimChars tok).map jsCharToLower⟩
  rw [trimChars_map _ jsCharToLower_ws, List.map_map]
  congr 1
  exact List.map_congr_left fun c _ => jsCharToLower_idem c

theorem allowedTypesOf_swap (s : String) :
    allowedTypesOf (swapSemisToCommas s) = allowedTypesOf s := by
  unfold allowedTypesOf jsSplitSeps
  rw [show (swapSemisToCommas s).data =
    s.data.map fun c => if c = ';' then ',' else c from rfl]
  rw [splitSepChars_map_swap]

theorem allowedTypesOf_lower (s : String) :
    allowedTypesOf (jsToLower s) = allowedTypesOf s := by
  unfold allowedTypesOf jsSplitSeps
  rw [show (jsToLower s).data = s.data.map jsCharToLower from rfl,
    splitSepChars_map_lower, List.map_map, List.map_map, List.map_map]
  congr 1
  apply List.map_congr_left
  intro tok _
  simpa using jsToLower_jsTrim_lower tok


theorem validate_isValid_congr (m : Nat) (s t : String)
    (states : List FileState) (f : FileData) (ex : List FileData)
    (h1 : s = "" ↔ t = "")
    (h2 : jsTrim s = "" ↔ jsTrim t = "")
    (h3 : jsTrim s = "*" ↔ jsTrim t = "*")
    (h5 : 0 < (allowedTypesOf s).length ↔ 0 < (allowedTypesOf t).length)
    (h4 : (allowedTypesOf s).any
        (matchesAllowedType (jsExtSuffix (jsToLower f.name)) (jsToLower f.mime)) =
      (allowedTypesOf t).any
        (matchesAllowedType (jsExtSuffix (jsToLower f.name)) (jsToLower f.mime))) :
    (validateFileType ⟨m, s⟩ states f ex).isValid =
      (validateFileType ⟨m, t⟩ states f ex).isValid := by
  rw [validateFileType_split, validateFileType_split]
  have hsz : sizeCheck ⟨m, s⟩ states f ex = sizeCheck ⟨m, t⟩ states f ex := rfl
  have hty : fileTypeAccepted s f = fileTypeAccepted t f := by
    unfold fileTypeAccepted
    by_cases hA : t = ""
    · simp [hA, h1.mpr hA]
    · by_cases hB : jsTrim t = ""
      · simp [hB, h2.mpr hB]
      · by_cases hC : jsTrim t = "*"
        · simp [hC, h3.mpr hC]
        · have hA' : ¬ s = "" := fun h => hA (h1.mp h)
          have hB' : ¬ jsTrim s = "" := fun h => hB (h2.mp h)
          have hC' : ¬ jsTrim s = "*" := fun h => hC (h3.mp h)
          simp only [hA, hB, hC, hA', hB', hC', decide_eq_true_eq,
            Bool.or_eq_true, or_false, false_or, if_false, decide_eq_false,
            Bool.false_or]
          by_cases hL : 0 < (allowedTypesOf t).length
          · have hL' := h5.mpr hL
            simp [hA, hB, hC, hA', hB', hC', hL, hL', h4]
          · have hL' : ¬ 0 < (allowedTypesOf s).length := fun h => hL (h5.mp h)
            simp [hA, hB, hC, hA', hB', hC', hL, hL']
  rw [hty, hsz]
  by_cases h : fileTypeAccepted t f = true <;> simp [h]

theorem matches_dot_pattern (ext ftype p : String)
    (hslash : jsIncludes p '/' = false) (hdot : headIsDot p.data = false) :
    matchesAllowedType ext ftype ("." ++ p) = matchesAllowedType ext ftype p := by
  have hdata : ("." ++ p).data = '.' :: p.data := by
    rw [String.data_append]
    rfl
  have hmem : '/' ∉ p.data := by
    simpa [jsIncludes] using hslash
  have h1 : jsIncludes ("." ++ p) '/' = false := by
    simp [jsIncludes, hdata, hmem]
  have h2 : headIsDot ('.' :: p.data) = true := by simp [headIsDot]
  unfold matchesAllowedType
  simp [h1, hslash, hdata, h2, hdot]


theorem jsToLower_ne_star (t : String) (h : t ≠ "*") : jsToLower t ≠ "*" := by
  intro hc
  apply h
  rw [string_eq_iff_data] at hc ⊢
  exact (map_eq_star _ jsCharToLower_eq_star _).mp hc

theorem allowedTypesOf_single (t : String)
    (hsep : ∀ c ∈ t.data, isSepChar c = false)
    (hws : ∀ c ∈ t.data, isWsChar c = false)
    (hne : t ≠ "") (hstar : t ≠ "*") :
    allowedTypesOf t = [jsToLower t] := by
  have htr : jsTrim t = t := String.ext (trimChars_eq_self t.data hws)
  have hne' : jsToLower t ≠ "" := fun h => hne ((jsToLower_eq_empty t).mp h)
  have hstar' : jsToLower t ≠ "*" := jsToLower_ne_star t hstar
  unfold allowedTypesOf jsSplitSeps
  rw [splitSepChars_eq_self t.data hsep]
  simp only [List.map_cons, List.map_nil]
  rw [show (⟨t.data⟩ : String) = t from rfl, htr]
  simp [List.filter, hne', hstar']

theorem allowedTypesOf_dot_single (t : String)
    (hsep : ∀ c ∈ t.data, isSepChar c = false)
    (hws : ∀ c ∈ t.data, isWsChar c = false) :
    allowedTypesOf ("." ++ t) = ["." ++ jsToLower t] := by
  have hdata : ("." ++ t).data = '.' :: t.data := by
    rw [String.data_append]
    rfl
  have hsep' : ∀ c ∈ ("." ++ t).data, isSepChar c = false := by
    rw [hdata]
    intro c hc
    rcases List.mem_cons.mp hc with h | h
    · rw [h]; decide
    · exact hsep c h
  have hws' : ∀ c ∈ ("." ++ t).data, isWsChar c = false := by
    rw [hdata]
    intro c hc
    rcases List.mem_cons.mp hc with h | h
    · rw [h]; decide
    · exact hws c h
  have htr : jsTrim ("." ++ t) = "." ++ t :=
    String.ext (trimChars_eq_self _ hws')
  have hlow : jsToLower ("." ++ t) = "." ++ jsToLower t := by
    rw [string_eq_iff_data]
    show (("." ++ t).data).map jsCharToLower = ("." ++ jsToLower t).data
    rw [hdata, String.data_append, List.map_cons]
    rfl
  have hne' : ("." ++ jsToLower t) ≠ "" := by
    intro h
    rw [string_eq_iff_data, String.data_append] at h
    simp at h
  have hstar' : ("." ++ jsToLower t) ≠ "*" := by
    intro h
    rw [string_eq_iff_data, String.data_append] at h
    rcases List.append_eq_cons.mp h with ⟨h1, _⟩ | ⟨l, h1, _⟩
    · have : (("." : String).data) = [] := h1
      simp at this
    · have h2 : (("." : String).data) = ['*'] ++ l := h1
      have : ('.' : Char) = '*' := by
        have := congrArg (fun x => x.headI) h2
        simpa using this
      exact absurd this (by decide)
  unfold allowedTypesOf jsSplitSeps
  rw [splitSepChars_eq_self _ hsep']
  simp only [List.map_cons, List.map_nil]
  rw [show (⟨("." ++ t).data⟩ : String) = "." ++ t from String.ext rfl, htr, hlow]
  simp [List.filter, hne', hstar']

theorem jsIncludes_lower_slash (t : String) (h : jsIncludes t '/' = false) :
    jsIncludes (jsToLower t) '/' = false := by
  have hmem : '/' ∉ t.data := by simpa [jsIncludes] using h
  have hmem2 : '/' ∉ t.data.map jsCharToLower := by
    intro hc
    obtain ⟨c, hcmem, hceq⟩ := List.mem_map.mp hc
    have hcd := (jsCharToLower_eq_slash c).mp hceq
    rw [hcd] at hcmem
    exact hmem hcmem
  simpa [jsIncludes, jsToLower] using hmem2

theorem headIsDot_lower (t : String) (h : headIsDot t.data = false) :
    headIsDot (jsToLower t).data = false := by
  show headIsDot (t.data.map jsCharToLower) = false
  cases hd : t.data with
  | nil => rfl
  | cons c l =>
    rw [hd] at h
    simp only [List.map_cons, headIsDot, decide_eq_false_iff_not] at h ⊢
    exact fun hc => h ((jsCharToLower_eq_dot c).mp hc)


/-- Claim C2 (confirmed): validation is invariant under the choice of `;`
versus `,` as separator and under the letter case of the allow-list string;
for a single extension token (no separators, whitespace, `/`, leading dot,
and not empty or the bare wildcard) a leading dot may be added without
changing which files are accepted; in particular the patterns `".PDF"`,
`"pdf"` and `"PDF"` accept exactly the same files. -/
theorem C2_claim :
    (∀ (m : Nat) (states : List FileState) (f : FileData) (ex : List FileData),
      (validateFileType ⟨m, ".PDF"⟩ states f ex).isValid =
        (validateFileType ⟨m, "pdf"⟩ states f ex).isValid ∧
      (validateFileType ⟨m, "PDF"⟩ states f ex).isValid =
        (validateFileType ⟨m, "pdf"⟩ states f ex).isValid) ∧
    (∀ (s : String) (m : Nat) (states : List FileState) (f : FileData)
        (ex : List FileData),
      (validateFileType ⟨m, swapSemisToCommas s⟩ states f ex).isValid =
        (validateFileType ⟨m, s⟩ states f ex).isValid) ∧
    (∀ (s : String) (m : Nat) (states : List FileState) (f : FileData)
        (ex : List FileData),
      (validateFileType ⟨m, jsToLower s⟩ states f ex).isValid =
        (validateFileType ⟨m, s⟩ states f ex).isValid) ∧
    (∀ (t : String) (m : Nat) (states : List FileState) (f : FileData)
        (ex : List FileData),
      t ≠ "" → t ≠ "*" → headIsDot t.data = false →
      jsIncludes t '/' = false →
      (∀ c ∈ t.data, isWsChar c = false) →
      (∀ c ∈ t.data, isSepChar c = false) →
      (validateFileType ⟨m, "." ++ t⟩ states f ex).isValid =
        (validateFileType ⟨m, t⟩ states f ex).isValid) := by
  refine ⟨?_, ?_, ?_, ?_⟩
  · intro m states f ex
    constructor
    · apply validate_isValid_congr
      · decide
      · decide
      · decide
      · decide
      · rw [show allowedTypesOf ".PDF" = [".pdf"] from by decide,
          show allowedTypesOf "pdf" = ["pdf"] from by decide]
        simp only [List.any_cons, List.any_nil, Bool.or_false]
        rw [show (".pdf" : String) = "." ++ "pdf" from by decide]
        exact matches_dot_pattern _ _ "pdf" (by decide) (by decide)
    · apply validate_isValid_congr
      · decide
      · decide
      · decide
      · decide
      · rw [show allowedTypesOf "PDF" = ["pdf"] from by decide,
          show allowedTypesOf "pdf" = ["pdf"] from by decide]
  · intro sarg m states f ex
    apply validate_isValid_congr
    · exact swap_eq_empty sarg
    · exact jsTrim_swap_eq_empty sarg
    · exact jsTrim_swap_eq_star sarg
    · rw [allowedTypesOf_swap]
    · rw [allowedTypesOf_swap]
  · intro sarg m states f ex
    apply validate_isValid_congr
    · exact jsToLower_eq_empty sarg
    · exact jsTrim_lower_eq_empty sarg
    · exact jsTrim_lower_eq_star sarg
    · rw [allowedTypesOf_lower]
    · rw [allowedTypesOf_lower]
  · intro t m states f ex hne hstar hdot hslash hws hsep
    have hdata : ("." ++ t).data = '.' :: t.data := by
      rw [String.data_append]
      rfl
    have hdotne : ¬ ("." ++ t) = "" := by
      intro h
      rw [string_eq_iff_data, hdata] at h
      simp at h
    have hdotstar : ¬ ("." ++ t) = "*" := by
      intro h
      rw [string_eq_iff_data, hdata] at h
      have : ('.' : Char) = '*' := by
        have := congrArg List.headI h
        simpa using this
      exact absurd this (by decide)
    have hws' : ∀ c ∈ ("." ++ t).data, isWsChar c = false := by
      rw [hdata]
      intro c hc
      rcases List.mem_cons.mp hc with h | h
      · rw [h]; decide
      · exact hws c h
    have htrdot : jsTrim ("." ++ t) = "." ++ t :=
      String.ext (trimChars_eq_self _ hws')
    have htr : jsTrim t = t := String.ext (trimChars_eq_self t.data hws)
    apply validate_isValid_congr
    · exact iff_of_false hdotne hne
    · rw [htrdot, htr]
      exact iff_of_false hdotne hne
    · rw [htrdot, htr]
      exact iff_of_false hdotstar hstar
    · rw [allowedTypesOf_dot_single t hsep hws,
        allowedTypesOf_single t hsep hws hne hstar]
      simp
    · rw [allowedTypesOf_dot_single t hsep hws,
        allowedTypesOf_single t hsep hws hne hstar]
      simp only [List.any_cons, List.any_nil, Bool.or_false]
      exact matches_dot_pattern _ _ (jsToLower t)
        (jsIncludes_lower_slash t hslash) (headIsDot_lower t hdot)

/-- Witness for `C2_claim`: the dot-invariance applied to the concrete
token `"pdf"`. -/
theorem C2_witness :
    (validateFileType ⟨0, "." ++ "pdf"⟩ [] ⟨"a.pdf", 1, "", ""⟩ []).isValid =
      (validateFileType ⟨0, "pdf"⟩ [] ⟨"a.pdf", 1, "", ""⟩ []).isValid :=
  C2_claim.2.2.2 "pdf" 0 [] ⟨"a.pdf", 1, "", ""⟩ [] (by decide) (by decide)
    (by decide) (by decide) (by decide) (by decide)

end CanvasFileUploader
